import Mathlib

/-!
Verification of the mosconi-render image pipeline (`src/app.py`).

The pipeline operates on in-memory raster images.  We embed images as a
structure carrying a color mode, dimensions, and a total pixel function;
the meaningful domain of the pixel function is `x < width`, `y < height`.
Machine arithmetic on pixel channels is over `Nat` (channel values live in
`[0,255]`; the embedded operations never need the upper bound).  The real
code computes resize scales in IEEE doubles; we model those computations
exactly over the rationals (equivalently, by `Nat` floor division), which
agrees with the double computation on all inputs appearing in theorems
and witnesses below.
-/

namespace MosconiRender

/-- An RGB pixel: three channel values (0..255 in the real program). -/
structure RGB where
  r : Nat
  g : Nat
  b : Nat
deriving DecidableEq, Repr

/-- PIL color modes that matter to this program: `RGB` (3 channels) versus
anything else (`RGBA` with alpha, palette, grayscale).  `app.py` only ever
tests `img.mode != "RGB"`. -/
inductive Mode where
  | rgb
  | rgba
  | pal
  | gray
deriving DecidableEq, Repr

/-- An in-memory raster image: a mode, dimensions and a pixel grid, embedded
as a total function whose meaningful domain is `x < width ∧ y < height`.
The `pix` field stores the RGB channels; for non-RGB modes the extra
channel data (alpha, palette) is not needed by any claim, only the mode
tag is tracked. -/
structure Img where
  mode : Mode
  width : Nat
  height : Nat
  pix : Nat → Nat → RGB

/-- Pixel-content equality on the meaningful domain: same dimensions and the
same pixel everywhere inside the image. -/
def Img.PixEq (a b : Img) : Prop :=
  a.width = b.width ∧ a.height = b.height ∧
    ∀ x < a.width, ∀ y < a.height, a.pix x y = b.pix x y

instance (a b : Img) : Decidable (a.PixEq b) := by
  unfold Img.PixEq; infer_instance

/-- Model of `img.convert("RGB")`, applied only when the mode is not already RGB
(`open_image` / `trim_white` in `app.py`).  PIL's RGBA→RGB conversion keeps
the RGB channels and drops alpha; we track the mode change and keep the
RGB channels. -/
def convertRGB (img : Img) : Img :=
  if img.mode = Mode.rgb then img else { img with mode := Mode.rgb }

/-- Per-channel absolute difference, `ImageChops.difference` on one channel. -/
def absDiff (a b : Nat) : Nat := max a b - min a b

/-- Model of `ImageChops.difference(img, bg_img)` at one pixel: channel-wise absolute
difference. -/
def diffPix (p bgc : RGB) : RGB :=
  ⟨absDiff p.r bgc.r, absDiff p.g bgc.g, absDiff p.b bgc.b⟩

/-- PIL `convert("L")` of an RGB pixel: the ITU-R 601-2 luma transform as
implemented in Pillow, `(R*19595 + G*38470 + B*7471) >> 16`. -/
def lumaL (c : RGB) : Nat := (c.r * 19595 + c.g * 38470 + c.b * 7471) / 65536

/-- The foreground test of `trim_white`: the pixel of the binarised image
`bw = diff_gray.point(lambda x: 255 if x > tolerance else 0)` is non-zero,
i.e. the luma of the channel-wise difference to the background color
exceeds the tolerance. -/
def isFg (bgc : RGB) (tol : Nat) (p : RGB) : Bool :=
  tol < lumaL (diffPix p bgc)

/-- The set of foreground pixel coordinates of an image under the
`trim_white` classifier. -/
def fgSet (img : Img) (bgc : RGB) (tol : Nat) : Finset (Nat × Nat) :=
  (Finset.range img.width ×ˢ Finset.range img.height).filter
    (fun q => isFg bgc tol (img.pix q.1 q.2))

/-- Model of `bw.getbbox()`: the smallest `(left, top, right, bottom)` box (right and
bottom exclusive) containing all non-zero pixels of the binarised image, or
`none` when there is no such pixel. -/
def getbbox (img : Img) (bgc : RGB) (tol : Nat) :
    Option (Nat × Nat × Nat × Nat) :=
  let s := fgSet img bgc tol
  if h : s.Nonempty then
    some ((s.image Prod.fst).min' (h.image _),
          (s.image Prod.snd).min' (h.image _),
          (s.image Prod.fst).max' (h.image _) + 1,
          (s.image Prod.snd).max' (h.image _) + 1)
  else none

/-- Model of `img.crop((l, t, r, b))`: the `(r-l) × (b-t)` image whose pixel `(x,y)`
is the source pixel `(x+l, y+t)`. -/
def crop (img : Img) (l t r b : Nat) : Img :=
  { mode := img.mode, width := r - l, height := b - t,
    pix := fun x y => img.pix (x + l) (y + t) }

/-- Model of `trim_white(img, bg, tolerance, padding)` from `app.py`: convert to RGB,
binarise the difference to the background color by the luma threshold, take
the bounding box of the non-zero pixels, return the (converted) image
unchanged when there is none, otherwise expand the box by `padding` clamped
to the image bounds and crop.  `max(0, l - padding)` is `Nat` truncated
subtraction. -/
def trim_white (img : Img) (bgc : RGB) (tol pad : Nat) : Img :=
  match getbbox (convertRGB img) bgc tol with
  | none => convertRGB img
  | some (l, t, r, b) =>
      crop (convertRGB img) (l - pad) (t - pad)
        (min (convertRGB img).width (r + pad))
        (min (convertRGB img).height (b + pad))

/-- The contract of the external resampling capability (PIL `Image.resize`
with the LANCZOS filter): the result has the requested dimensions and the
mode of its input.  The resampled pixel values are a property of the
external codec library and are left abstract: the pipeline is parametric
in `resample`. -/
def ResampleOK (resample : Img → Nat → Nat → Img) : Prop :=
  ∀ im w h, (resample im w h).mode = im.mode ∧
    (resample im w h).width = w ∧ (resample im w h).height = h

/-- Model of `resize_to_height(img, target_h)` from `app.py`: pass-through when the
height already matches, otherwise resize to
`(max(1, int(w * (target_h / h))), target_h)`.  The float product
`int(w * (target_h / h))` is modelled exactly as the rational floor
`w * target_h / h` (`Nat` floor division). -/
def resize_to_height (resample : Img → Nat → Nat → Img) (img : Img)
    (target_h : Nat) : Img :=
  if img.height = target_h then img
  else resample img (max 1 (img.width * target_h / img.height)) target_h

/-- Modelled from the spec's words (for comparison with the code's
`resize_to_height` width): "width is recomputed as
`round(width * target_height / height)`, floored at 1". -/
def specResizeWidth (w target_h h : Nat) : Nat :=
  max 1 (Int.toNat (round ((w * target_h : ℚ) / h)))

/-- Modelled from the spec's words (for comparison with the code's `isFg`
classifier): "pixel is foreground iff Euclidean RGB distance to `color`
exceeds `tolerance`" — equivalently, squared distance exceeds squared
tolerance. -/
def specIsFgEuclid (bgc : RGB) (tol : Nat) (p : RGB) : Bool :=
  tol * tol <
    absDiff p.r bgc.r * absDiff p.r bgc.r +
    absDiff p.g bgc.g * absDiff p.g bgc.g +
    absDiff p.b bgc.b * absDiff p.b bgc.b

/-- Model of `clamp_image(img)` from `app.py`: if the longer side exceeds `maxSide`,
downscale both sides by `maxSide / m` (floors modelled exactly, each side
floored at 1). -/
def clamp_image (maxSide : Nat) (resample : Img → Nat → Nat → Img)
    (img : Img) : Img :=
  let m := max img.width img.height
  if m ≤ maxSide then img
  else resample img (max 1 (img.width * maxSide / m))
        (max 1 (img.height * maxSide / m))

/-- Model of `out.paste(im, (px, py))`: pixels inside the pasted rectangle come from
`im`, all others keep the canvas value. -/
def paste (canvas im : Img) (px py : Nat) : Img :=
  { mode := canvas.mode, width := canvas.width, height := canvas.height,
    pix := fun x y =>
      if px ≤ x ∧ x < px + im.width ∧ py ≤ y ∧ y < py + im.height
      then im.pix (x - px) (y - py)
      else canvas.pix x y }

/-- The paste loop of `composite_horizontal`: paste each image at the
running x-cursor, advancing the cursor by the image's width. -/
def pasteRow (canvas : Img) (x : Nat) : List Img → Img
  | [] => canvas
  | im :: ims => pasteRow (paste canvas im x 0) (x + im.width) ims

/-- Model of `composite_horizontal(images, background)` from `app.py`: the target
height is the minimum input height (`min` of an empty list raises in
Python, modelled as `none`); every image is resized to that height; the
canvas is `sum-of-resized-widths × target_h`, RGB, filled with the
background color; images are pasted left to right edge-to-edge. -/
def composite_horizontal (resample : Img → Nat → Nat → Img)
    (images : List Img) (background : RGB) : Option Img :=
  match (images.map Img.height).min? with
  | none => none
  | some target_h =>
      let resized := images.map (fun im => resize_to_height resample im target_h)
      let total_w := (resized.map Img.width).sum
      let canvas : Img := ⟨Mode.rgb, total_w, target_h, fun _ _ => background⟩
      some (pasteRow canvas 0 resized)

/-- Model of `open_image(content)` from `app.py`, after the external codec has
decoded the bytes into a raster (`decoded`): normalise to RGB. -/
def open_image (decoded : Img) : Img := convertRGB decoded

/-! ### Fetching and the HTTP entry point -/

/-- The outcome of one `requests.get` call: either a response with a status
code, body bytes and body text, or a raised exception.  The network is an
external collaborator, embedded as an oracle mapping the attempt number to
its outcome. -/
inductive Attempt where
  | response (code : Nat) (content : List Nat) (text : List Char)
  | exn (msg : String)

/-- The error component of `download_bytes`' return value, structured:
`http` for the early return on a status ≥ 400 (with the 200-character body
snippet), `exhausted` for the fall-through after the retry loop. -/
inductive FetchErr where
  | http (status : Nat) (snippet : List Char)
  | exhausted (lastErr : Option String)
deriving DecidableEq, Repr

/-- The `(content, err, status)` triple returned by `download_bytes`. -/
structure DownloadResult where
  content : Option (List Nat)
  err : Option FetchErr
  status : Option Nat
deriving DecidableEq, Repr

/-- The retry loop of `download_bytes`.  Arguments: the attempt counter,
the remaining iterations (`RETRIES + 1` initially), `last_err`,
`last_status`, and the accumulated sleep delays (reversed).  Returns the
result triple, the number of `requests.get` calls made, and the list of
back-off delays slept (`RETRY_BACKOFF * (attempt + 1)` after each
exception).  A response with status ≥ 400 returns at once; a response with
status < 400 returns the content; only an exception continues the loop. -/
def downloadGo (oracle : Nat → Attempt) (backoff : ℚ) :
    Nat → Nat → Option String → Option Nat → List ℚ →
    DownloadResult × Nat × List ℚ
  | attempt, 0, lastErr, lastStatus, sleeps =>
      (⟨none, some (FetchErr.exhausted lastErr), lastStatus⟩, attempt,
        sleeps.reverse)
  | attempt, rem + 1, _lastErr, lastStatus, sleeps =>
      match oracle attempt with
      | Attempt.response code content text =>
          if 400 ≤ code then
            (⟨none, some (FetchErr.http code (text.take 200)), some code⟩,
              attempt + 1, sleeps.reverse)
          else
            (⟨some content, none, some code⟩, attempt + 1, sleeps.reverse)
      | Attempt.exn msg =>
          downloadGo oracle backoff (attempt + 1) rem (some msg) lastStatus
            (backoff * ((attempt : ℚ) + 1) :: sleeps)

/-- Model of `download_bytes(url)` from `app.py`, for one URL whose successive
attempt outcomes are given by `oracle`: run the retry loop for
`retries + 1` iterations. -/
def download_bytes (retries : Nat) (backoff : ℚ) (oracle : Nat → Attempt) :
    DownloadResult × Nat × List ℚ :=
  downloadGo oracle backoff 0 (retries + 1) none none []

/-- An entry of the request's `urls` list: a JSON string (embedded as its
character list, so that the scheme check is kernel-computable) or some
non-string value. -/
inductive UrlVal where
  | str (s : List Char)
  | nonStr
deriving DecidableEq

/-- The `urls` field of the request body: a JSON list or some non-list
value. -/
inductive UrlsVal where
  | notList
  | list (items : List UrlVal)

/-- The parsed JSON request body as `render` inspects it: whether it is an
object, and its `idcoti` and `urls` members. -/
structure ReqBody where
  isObject : Bool
  idcoti : Option String
  urls : Option UrlsVal

/-- The characters of the scheme `http://`. -/
def httpScheme : List Char := ['h', 't', 't', 'p', ':', '/', '/']

/-- The characters of the scheme `https://`. -/
def httpsScheme : List Char := ['h', 't', 't', 'p', 's', ':', '/', '/']

/-- The per-URL validation in `render`: a string starting with `http://` or
`https://` (`u.startswith(...)` in `app.py`). -/
def validUrl : UrlVal → Bool
  | UrlVal.str s => httpScheme.isPrefixOf s || httpsScheme.isPrefixOf s
  | UrlVal.nonStr => false

/-- The observable outcome of a `/render` request: each `_fail(400, ...)`
site, the 500 handler, or the PNG response. -/
inductive RenderOutcome where
  | invalidBody
  | missingIdcoti
  | invalidUrls
  | tooMany (count : Nat)
  | badUrl (i : Nat)
  | fetchError (i : Nat) (status : Option Nat)
  | decodeError (i : Nat)
  | internalError
  | png (img : Img)

/-- Outcomes rejected by `render`'s validation with HTTP 400 before (or
without) running the fetch-and-composite pipeline. -/
def RenderOutcome.isInvalidRequest : RenderOutcome → Bool
  | RenderOutcome.invalidBody => true
  | RenderOutcome.missingIdcoti => true
  | RenderOutcome.invalidUrls => true
  | RenderOutcome.tooMany _ => true
  | RenderOutcome.badUrl _ => true
  | _ => false

/-- Process-wide configuration read from the environment in `app.py`. -/
structure Config where
  maxImages : Nat
  retries : Nat
  backoff : ℚ
  maxSide : Nat
  trimBg : RGB
  tolerance : Nat
  padding : Nat

/-- The per-URL loop of `render`: download (an error aborts with the index
and status), decode via the external codec oracle (failure aborts with the
index), else open → clamp → trim and accumulate; after the last URL,
composite onto white.  The second component counts the URLs for which a
download was attempted. -/
def processUrls (cfg : Config) (resample : Img → Nat → Nat → Img)
    (fetch : Nat → Nat → Attempt) (decode : Nat → List Nat → Option Img) :
    Nat → List UrlVal → List Img → RenderOutcome × Nat
  | i, [], acc =>
      (match composite_horizontal resample acc ⟨255, 255, 255⟩ with
        | some out => RenderOutcome.png out
        | none => RenderOutcome.internalError, i)
  | i, _u :: rest, acc =>
      match (download_bytes cfg.retries cfg.backoff (fetch i)).1.err with
      | some _ =>
          (RenderOutcome.fetchError i
            (download_bytes cfg.retries cfg.backoff (fetch i)).1.status, i + 1)
      | none =>
          match decode i
              (((download_bytes cfg.retries cfg.backoff
                (fetch i)).1.content).getD []) with
          | none => (RenderOutcome.decodeError i, i + 1)
          | some raw =>
              processUrls cfg resample fetch decode (i + 1) rest
                (acc ++ [trim_white (clamp_image cfg.maxSide resample (open_image raw))
                    cfg.trimBg cfg.tolerance cfg.padding])

/-- The `/render` handler from `app.py`: validate the body shape, `idcoti`,
the `urls` list (present, non-empty, within `MAX_IMAGES`, every entry an
http(s) URL string), then run the per-URL pipeline.  The second component
counts the URLs for which a download was attempted (0 on every validation
failure: validation precedes all network activity). -/
def render (cfg : Config) (resample : Img → Nat → Nat → Img)
    (body : ReqBody) (fetch : Nat → Nat → Attempt)
    (decode : Nat → List Nat → Option Img) : RenderOutcome × Nat :=
  if body.isObject = false then (RenderOutcome.invalidBody, 0)
  else
    match body.idcoti with
    | none => (RenderOutcome.missingIdcoti, 0)
    | some _ =>
        match body.urls with
        | none => (RenderOutcome.invalidUrls, 0)
        | some UrlsVal.notList => (RenderOutcome.invalidUrls, 0)
        | some (UrlsVal.list items) =>
            if items.length = 0 then (RenderOutcome.invalidUrls, 0)
            else if cfg.maxImages < items.length then
              (RenderOutcome.tooMany items.length, 0)
            else
              match items.findIdx? (fun u => !validUrl u) with
              | some i => (RenderOutcome.badUrl i, 0)
              | none => processUrls cfg resample fetch decode 0 items []

/-! ### Concrete instances used to instantiate the theorems -/

/-- The white background color `TRIM_BG = (255, 255, 255)`. -/
def white : RGB := ⟨255, 255, 255⟩

/-- A concrete resampling function satisfying `ResampleOK` (nearest
neighbour), used to instantiate the pipeline, which is parametric in the
external resampler. -/
def nearestResample (im : Img) (w h : Nat) : Img :=
  ⟨im.mode, w, h, fun x y => im.pix (x * im.width / w) (y * im.height / h)⟩

/-- A 2×1 RGB image: a black pixel at `x = 0` and the near-white pixel
`(255, 255, 225)` at `x = 1` (Euclidean distance 30 from white, Pillow
luma of the difference 3). -/
def exMix2x1 : Img :=
  ⟨Mode.rgb, 2, 1, fun x _ => if x = 0 then ⟨0, 0, 0⟩ else ⟨255, 255, 225⟩⟩

/-- A 4×4 white image with a single black pixel at `(1, 1)`. -/
def exDot : Img :=
  ⟨Mode.rgb, 4, 4, fun x y => if x = 1 ∧ y = 1 then ⟨0, 0, 0⟩ else white⟩

/-- A 3×2 image that is entirely the background color. -/
def exAllWhite : Img := ⟨Mode.rgb, 3, 2, fun _ _ => white⟩

/-- A 5×3 constant image (the `round` vs `int` resize discrepancy shows at
target height 4: `5 * 4 / 3 = 6.66…`). -/
def exImg5x3 : Img := ⟨Mode.rgb, 5, 3, fun _ _ => ⟨10, 20, 30⟩⟩

/-- A 2×2 constant image. -/
def exImgA : Img := ⟨Mode.rgb, 2, 2, fun _ _ => ⟨1, 2, 3⟩⟩

/-- A 3×4 constant image. -/
def exImgB : Img := ⟨Mode.rgb, 3, 4, fun _ _ => ⟨4, 5, 6⟩⟩

/-- A decoded 2×2 image in RGBA mode (as `Image.open` may yield). -/
def exRawRGBA : Img := ⟨Mode.rgba, 2, 2, fun _ _ => ⟨7, 8, 9⟩⟩

/-- The default configuration of `app.py`: `MAX_IMAGES = 6`,
`RETRIES = 2`, `RETRY_BACKOFF = 0.6`, `MAX_SIDE = 2500`,
`TRIM_BG = white`, `TRIM_TOLERANCE = 18`, `TRIM_PADDING = 2`. -/
def exCfg : Config := ⟨6, 2, 3 / 5, 2500, white, 18, 2⟩

/-- A well-formed request body with one URL, `http://a`. -/
def exBodyOne : ReqBody :=
  ⟨true, some ("1"),
    some (UrlsVal.list [UrlVal.str ['h', 't', 't', 'p', ':', '/', '/', 'a']])⟩

/-- A request body whose `urls` is the empty list. -/
def exBodyEmpty : ReqBody := ⟨true, some ("1"), some (UrlsVal.list [])⟩

/-- A request body with 7 entries, one more than `MAX_IMAGES = 6`. -/
def exBodyMany : ReqBody :=
  ⟨true, some ("1"), some (UrlsVal.list (List.replicate 7 UrlVal.nonStr))⟩

/-! ### Basic facts about the foreground set and the bounding box -/

theorem mem_fgSet {img : Img} {bgc : RGB} {tol x y : Nat} :
    (x, y) ∈ fgSet img bgc tol ↔
      x < img.width ∧ y < img.height ∧ isFg bgc tol (img.pix x y) = true := by
  simp [fgSet, Finset.mem_filter, Finset.mem_product, Finset.mem_range,
    and_assoc]

theorem getbbox_eq_some {img : Img} {bgc : RGB} {tol : Nat}
    (h : (fgSet img bgc tol).Nonempty) :
    getbbox img bgc tol = some
      (((fgSet img bgc tol).image Prod.fst).min' (h.image _),
       ((fgSet img bgc tol).image Prod.snd).min' (h.image _),
       ((fgSet img bgc tol).image Prod.fst).max' (h.image _) + 1,
       ((fgSet img bgc tol).image Prod.snd).max' (h.image _) + 1) := by
  simp only [getbbox]
  rw [dif_pos h]

theorem getbbox_eq_none {img : Img} {bgc : RGB} {tol : Nat}
    (h : ¬ (fgSet img bgc tol).Nonempty) :
    getbbox img bgc tol = none := by
  simp only [getbbox]
  rw [dif_neg h]

theorem fg_mem_bbox {img : Img} {bgc : RGB} {tol l t r b x y : Nat}
    (h : getbbox img bgc tol = some (l, t, r, b))
    (hxy : (x, y) ∈ fgSet img bgc tol) :
    l ≤ x ∧ x < r ∧ t ≤ y ∧ y < b := by
  have hne : (fgSet img bgc tol).Nonempty := ⟨(x, y), hxy⟩
  rw [getbbox_eq_some hne] at h
  simp only [Option.some.injEq, Prod.mk.injEq] at h
  obtain ⟨hl, ht, hr, hb⟩ := h
  have hfx : x ∈ (fgSet img bgc tol).image Prod.fst :=
    Finset.mem_image_of_mem _ hxy
  have hfy : y ∈ (fgSet img bgc tol).image Prod.snd :=
    Finset.mem_image_of_mem _ hxy
  refine ⟨hl ▸ Finset.min'_le _ _ hfx, ?_, ht ▸ Finset.min'_le _ _ hfy, ?_⟩
  · have := Finset.le_max' _ _ hfx
    omega
  · have := Finset.le_max' _ _ hfy
    omega

theorem bbox_sides_fg {img : Img} {bgc : RGB} {tol l t r b : Nat}
    (h : getbbox img bgc tol = some (l, t, r, b)) :
    (∃ y, (l, y) ∈ fgSet img bgc tol) ∧
    (∃ y, (r - 1, y) ∈ fgSet img bgc tol) ∧
    (∃ x, (x, t) ∈ fgSet img bgc tol) ∧
    (∃ x, (x, b - 1) ∈ fgSet img bgc tol) := by
  have hne : (fgSet img bgc tol).Nonempty := by
    by_contra hemp
    rw [getbbox_eq_none hemp] at h
    exact Option.noConfusion h
  rw [getbbox_eq_some hne] at h
  simp only [Option.some.injEq, Prod.mk.injEq] at h
  obtain ⟨hl, ht, hr, hb⟩ := h
  refine ⟨?_, ?_, ?_, ?_⟩
  · obtain ⟨⟨px, py⟩, hmem, hpx⟩ :=
      Finset.mem_image.mp (Finset.min'_mem _ (hne.image Prod.fst))
    exact ⟨py, by rwa [← hl, ← hpx]⟩
  · obtain ⟨⟨px, py⟩, hmem, hpx⟩ :=
      Finset.mem_image.mp (Finset.max'_mem _ (hne.image Prod.fst))
    refine ⟨py, ?_⟩
    have : r - 1 = px := by omega
    rwa [this]
  · obtain ⟨⟨px, py⟩, hmem, hpy⟩ :=
      Finset.mem_image.mp (Finset.min'_mem _ (hne.image Prod.snd))
    exact ⟨px, by rwa [← ht, ← hpy]⟩
  · obtain ⟨⟨px, py⟩, hmem, hpy⟩ :=
      Finset.mem_image.mp (Finset.max'_mem _ (hne.image Prod.snd))
    refine ⟨px, ?_⟩
    have : b - 1 = py := by omega
    rwa [this]

theorem bbox_le {img : Img} {bgc : RGB} {tol l t r b : Nat}
    (h : getbbox img bgc tol = some (l, t, r, b)) :
    l < r ∧ t < b ∧ r ≤ img.width ∧ b ≤ img.height := by
  obtain ⟨⟨yl, hyl⟩, ⟨yr, hyr⟩, ⟨xt, hxt⟩, ⟨xb, hxb⟩⟩ := bbox_sides_fg h
  have h1 := fg_mem_bbox h hyl
  have h2 := fg_mem_bbox h hyr
  have h3 := mem_fgSet.mp hyr
  have h4 := mem_fgSet.mp hxb
  have h5 := fg_mem_bbox h hxt
  have h6 := fg_mem_bbox h hxb
  omega

/-! ### Mode conversion, cropping and the two branches of `trim_white` -/

theorem convertRGB_mode (img : Img) : (convertRGB img).mode = Mode.rgb := by
  unfold convertRGB
  split
  · assumption
  · rfl

theorem convertRGB_rgb {img : Img} (h : img.mode = Mode.rgb) :
    convertRGB img = img := by
  unfold convertRGB
  rw [if_pos h]

theorem convertRGB_width (img : Img) : (convertRGB img).width = img.width := by
  unfold convertRGB
  split <;> rfl

theorem convertRGB_height (img : Img) : (convertRGB img).height = img.height := by
  unfold convertRGB
  split <;> rfl

theorem getbbox_convertRGB (img : Img) (bgc : RGB) (tol : Nat) :
    getbbox (convertRGB img) bgc tol = getbbox img bgc tol := by
  unfold convertRGB
  split <;> rfl

theorem crop_self (img : Img) : crop img 0 0 img.width img.height = img := rfl

theorem trim_white_none {img : Img} {bgc : RGB} {tol pad : Nat}
    (h : getbbox img bgc tol = none) :
    trim_white img bgc tol pad = convertRGB img := by
  unfold trim_white
  rw [getbbox_convertRGB, h]

theorem trim_white_some {img : Img} {bgc : RGB} {tol pad l t r b : Nat}
    (h : getbbox img bgc tol = some (l, t, r, b)) :
    trim_white img bgc tol pad =
      crop (convertRGB img) (l - pad) (t - pad)
        (min img.width (r + pad)) (min img.height (b + pad)) := by
  unfold trim_white
  rw [getbbox_convertRGB, h, convertRGB_width, convertRGB_height]

/-- The value of `Finset.min'` only depends on the set (the nonemptiness proof is
irrelevant). -/
theorem min'_set_congr {s u : Finset Nat} (h : s = u) (hs : s.Nonempty) :
    s.min' hs = u.min' (h ▸ hs) := by
  subst h
  rfl

/-- The value of `Finset.max'` only depends on the set. -/
theorem max'_set_congr {s u : Finset Nat} (h : s = u) (hs : s.Nonempty) :
    s.max' hs = u.max' (h ▸ hs) := by
  subst h
  rfl

/-- The foreground pixels of a crop whose window contains the bounding box
are exactly the foreground pixels of the source, shifted by the window
offset. -/
theorem fgSet_crop {img : Img} {bgc : RGB} {tol l t r b l' t' r' b' : Nat}
    (h : getbbox img bgc tol = some (l, t, r, b))
    (hl : l' ≤ l) (ht : t' ≤ t) (hr : r ≤ r') (hb : b ≤ b')
    (hrw : r' ≤ img.width) (hbh : b' ≤ img.height) :
    fgSet (crop img l' t' r' b') bgc tol =
      (fgSet img bgc tol).image (fun p => (p.1 - l', p.2 - t')) := by
  ext ⟨x, y⟩
  rw [mem_fgSet, Finset.mem_image]
  constructor
  · rintro ⟨hx, hy, hfg⟩
    refine ⟨(x + l', y + t'), mem_fgSet.mpr ⟨?_, ?_, hfg⟩, ?_⟩
    · simp only [crop] at hx
      omega
    · simp only [crop] at hy
      omega
    · simp [Nat.add_sub_cancel]
  · rintro ⟨⟨u, v⟩, hmem, hp⟩
    obtain ⟨hu, hv, hfg⟩ := mem_fgSet.mp hmem
    obtain ⟨hlu, hur, htv, hvb⟩ := fg_mem_bbox h hmem
    obtain ⟨rfl, rfl⟩ : u - l' = x ∧ v - t' = y := by
      simpa using hp
    refine ⟨?_, ?_, ?_⟩
    · simp only [crop]
      omega
    · simp only [crop]
      omega
    · have h1 : u - l' + l' = u := by omega
      have h2 : v - t' + t' = v := by omega
      simp only [crop, h1, h2]
      exact hfg

/-- The bounding box of a crop whose window contains the bounding box of
the source is the source's box shifted by the window offset. -/
theorem getbbox_crop {img : Img} {bgc : RGB} {tol l t r b : Nat}
    (l' t' r' b' : Nat)
    (h : getbbox img bgc tol = some (l, t, r, b))
    (hl : l' ≤ l) (ht : t' ≤ t) (hr : r ≤ r') (hb : b ≤ b')
    (hrw : r' ≤ img.width) (hbh : b' ≤ img.height) :
    getbbox (crop img l' t' r' b') bgc tol =
      some (l - l', t - t', (r - 1) - l' + 1, (b - 1) - t' + 1) := by
  have hne : (fgSet img bgc tol).Nonempty := by
    by_contra hemp
    rw [getbbox_eq_none hemp] at h
    exact Option.noConfusion h
  have hset := fgSet_crop h hl ht hr hb hrw hbh
  have hne' : (fgSet (crop img l' t' r' b') bgc tol).Nonempty := by
    rw [hset]
    exact hne.image _
  rw [getbbox_eq_some hne] at h
  simp only [Option.some.injEq, Prod.mk.injEq] at h
  obtain ⟨hlv, htv, hrv, hbv⟩ := h
  have hfst : (fgSet (crop img l' t' r' b') bgc tol).image Prod.fst =
      ((fgSet img bgc tol).image Prod.fst).image (fun u => u - l') := by
    rw [hset, Finset.image_image, Finset.image_image]
    rfl
  have hsnd : (fgSet (crop img l' t' r' b') bgc tol).image Prod.snd =
      ((fgSet img bgc tol).image Prod.snd).image (fun v => v - t') := by
    rw [hset, Finset.image_image, Finset.image_image]
    rfl
  have hmono1 : Monotone (fun u : Nat => u - l') := fun a b hab =>
    Nat.sub_le_sub_right hab l'
  have hmono2 : Monotone (fun v : Nat => v - t') := fun a b hab =>
    Nat.sub_le_sub_right hab t'
  rw [getbbox_eq_some hne']
  congr 1
  refine Prod.ext ?_ (Prod.ext ?_ (Prod.ext ?_ ?_))
  · simp only
    rw [min'_set_congr hfst, Finset.min'_image hmono1, hlv]
  · simp only
    rw [min'_set_congr hsnd, Finset.min'_image hmono2, htv]
  · simp only
    rw [max'_set_congr hfst, Finset.max'_image hmono1]
    omega
  · simp only
    rw [max'_set_congr hsnd, Finset.max'_image hmono2]
    omega

theorem crop_width (img : Img) (l t r b : Nat) :
    (crop img l t r b).width = r - l := rfl

theorem crop_height (img : Img) (l t r b : Nat) :
    (crop img l t r b).height = b - t := rfl

theorem crop_eq_self {img : Img} {l t r b : Nat} (hl : l = 0) (ht : t = 0)
    (hr : r = img.width) (hb : b = img.height) : crop img l t r b = img := by
  subst hl
  subst ht
  subst hr
  subst hb
  rfl

theorem trim_white_mode (img : Img) (bgc : RGB) (tol pad : Nat) :
    (trim_white img bgc tol pad).mode = Mode.rgb := by
  cases h : getbbox img bgc tol with
  | none =>
      rw [trim_white_none h]
      exact convertRGB_mode img
  | some quad =>
      obtain ⟨l, t, r, b⟩ := quad
      rw [trim_white_some h]
      exact convertRGB_mode img

/-! ### Claim theorems: the Trimmer -/

/-- C1, counterexample to the claim as stated: `trim_white` does NOT
classify foreground by Euclidean RGB distance.  In the 2×1 image
`exMix2x1`, the pixel at `x = 1` is `(255, 255, 225)`: its Euclidean
distance to white is `30 > 18`, so under the claim it is foreground and
the trimmed box (padding 0) would include it (width 2); the code scores it
by the Pillow luma of the channel difference, `(30 * 7471) >> 16 = 3 ≤ 18`,
classifies it background, and crops it away (width 1). -/
theorem trim_not_euclidean :
    specIsFgEuclid white 18 (exMix2x1.pix 1 0) = true ∧
    isFg white 18 (exMix2x1.pix 1 0) = false ∧
    (trim_white exMix2x1 white 18 0).width = 1 := by
  decide

/-- C1 (amended): for every RGB image and tolerance, `trim_white` under the
fixed-background model classifies a pixel as foreground exactly when the
ITU-R 601-2 luma of the channel-wise absolute difference to the background
color (Pillow's `convert("L")` of `ImageChops.difference`) exceeds the
tolerance — not the Euclidean RGB distance — and the bounding box it crops
to (before padding) is the smallest box enclosing exactly those pixels:
it bounds every such pixel and touches one on each of its four sides. -/
theorem trim_bbox_minimal_luma (img : Img) (bgc : RGB) (tol pad l t r b : Nat)
    (h : getbbox img bgc tol = some (l, t, r, b)) :
    (img.mode = Mode.rgb →
      trim_white img bgc tol pad =
        crop img (l - pad) (t - pad) (min img.width (r + pad))
          (min img.height (b + pad)))
    ∧ (∀ x < img.width, ∀ y < img.height,
        isFg bgc tol (img.pix x y) = true → l ≤ x ∧ x < r ∧ t ≤ y ∧ y < b)
    ∧ (∃ y < img.height, isFg bgc tol (img.pix l y) = true)
    ∧ (∃ y < img.height, isFg bgc tol (img.pix (r - 1) y) = true)
    ∧ (∃ x < img.width, isFg bgc tol (img.pix x t) = true)
    ∧ (∃ x < img.width, isFg bgc tol (img.pix x (b - 1)) = true) := by
  obtain ⟨⟨yl, hyl⟩, ⟨yr, hyr⟩, ⟨xt, hxt⟩, ⟨xb, hxb⟩⟩ := bbox_sides_fg h
  refine ⟨?_, ?_, ?_, ?_, ?_, ?_⟩
  · intro hmode
    rw [trim_white_some h, convertRGB_rgb hmode]
  · intro x hx y hy hfg
    exact fg_mem_bbox h (mem_fgSet.mpr ⟨hx, hy, hfg⟩)
  · obtain ⟨_, h2, h3⟩ := mem_fgSet.mp hyl
    exact ⟨yl, h2, h3⟩
  · obtain ⟨_, h2, h3⟩ := mem_fgSet.mp hyr
    exact ⟨yr, h2, h3⟩
  · obtain ⟨h1, _, h3⟩ := mem_fgSet.mp hxt
    exact ⟨xt, h1, h3⟩
  · obtain ⟨h1, _, h3⟩ := mem_fgSet.mp hxb
    exact ⟨xb, h1, h3⟩

/-- C1 witness: on the 4×4 image with a single black dot at `(1, 1)`
(bounding box `(1, 1, 2, 2)`), trimming with tolerance 18 and padding 2
crops to the box expanded by the padding and clamped to the image. -/
theorem trim_bbox_minimal_luma_witness :
    trim_white exDot white 18 2 =
      crop exDot (1 - 2) (1 - 2) (min exDot.width (2 + 2))
        (min exDot.height (2 + 2)) :=
  (trim_bbox_minimal_luma exDot white 18 2 1 1 2 2 (by decide)).1 rfl

/-- C4: an input image in which every pixel is classified as background
(no foreground pixel) is returned by the Trimmer unchanged, pixel for
pixel — in particular the result is never zero-sized. -/
theorem trim_all_background (img : Img) (bgc : RGB) (tol pad : Nat)
    (hmode : img.mode = Mode.rgb)
    (hbg : ∀ x < img.width, ∀ y < img.height,
      isFg bgc tol (img.pix x y) = false) :
    trim_white img bgc tol pad = img := by
  have hemp : ¬ (fgSet img bgc tol).Nonempty := by
    rintro ⟨⟨x, y⟩, hxy⟩
    obtain ⟨hx, hy, hfg⟩ := mem_fgSet.mp hxy
    rw [hbg x hx y hy] at hfg
    exact Bool.noConfusion hfg
  rw [trim_white_none (getbbox_eq_none hemp), convertRGB_rgb hmode]

/-- C4 witness: the all-white 3×2 image is returned unchanged. -/
theorem trim_all_background_witness :
    trim_white exAllWhite white 18 2 = exAllWhite :=
  trim_all_background exAllWhite white 18 2 rfl (by decide)

/-- C5: trimming is idempotent — applying `trim_white` with the same
background color, tolerance and padding to an already-trimmed image
returns it unchanged: the recomputed bounding box, expanded by the
padding, covers the whole already-trimmed image. -/
theorem trim_white_idempotent (img : Img) (bgc : RGB) (tol pad : Nat) :
    trim_white (trim_white img bgc tol pad) bgc tol pad =
      trim_white img bgc tol pad := by
  cases hbox : getbbox img bgc tol with
  | none =>
      rw [trim_white_none hbox,
        trim_white_none (by rw [getbbox_convertRGB]; exact hbox),
        convertRGB_rgb (convertRGB_mode img)]
  | some quad =>
      obtain ⟨l, t, r, b⟩ := quad
      obtain ⟨hlr, htb, hrw, hbh⟩ := bbox_le hbox
      rw [trim_white_some hbox]
      have hcw : (convertRGB img).width = img.width := convertRGB_width img
      have hch : (convertRGB img).height = img.height := convertRGB_height img
      have hbc : getbbox (convertRGB img) bgc tol = some (l, t, r, b) := by
        rw [getbbox_convertRGB]
        exact hbox
      have hcrop := getbbox_crop (l - pad) (t - pad)
        (min img.width (r + pad)) (min img.height (b + pad)) hbc
        (by omega) (by omega) (by omega) (by omega) (by omega) (by omega)
      rw [trim_white_some hcrop]
      have hmode : (crop (convertRGB img) (l - pad) (t - pad)
          (min img.width (r + pad)) (min img.height (b + pad))).mode =
          Mode.rgb := convertRGB_mode img
      rw [convertRGB_rgb hmode]
      refine crop_eq_self (by omega) (by omega) ?_ ?_
      · simp only [crop_width]
        omega
      · simp only [crop_height]
        omega

/-! ### Claim theorems: the Normalizer -/

/-- C3, counterexample to the claim as stated: the resized width is the
truncation `int(w * t / h)` floored at 1, not `round(w * t / h)` floored at
1.  At `w = 5, h = 3, t = 4` the exact ratio is `20/3 = 6.66…`: the code
computes width 6, while the claimed `round` gives 7. -/
theorem resize_width_not_round :
    (resize_to_height nearestResample exImg5x3 4).width = 6 ∧
    specResizeWidth 5 4 3 = 7 ∧
    (resize_to_height nearestResample exImg5x3 4).width ≠
      specResizeWidth 5 4 3 := by
  have h7 : specResizeWidth 5 4 3 = 7 := by
    unfold specResizeWidth
    have hq : (((5 : Nat) : ℚ) * ((4 : Nat) : ℚ)) / ((3 : Nat) : ℚ) =
        20 / 3 := by
      norm_num
    rw [hq]
    have hr : round ((20 : ℚ) / 3) = 7 := by
      rw [round_eq]
      rw [Int.floor_eq_iff] <;> norm_num
    rw [hr]
    rfl
  refine ⟨by decide, h7, ?_⟩
  rw [h7]
  decide

/-- C3 (amended): for a target height `t > 0` different from the image's
height, `resize_to_height` produces an image of height `t` whose width is
the floor `int(w * t / h)` (exact rational division truncated), clamped
below at 1 — not the rounded value. -/
theorem resize_dims_floor (resample : Img → Nat → Nat → Img)
    (hres : ResampleOK resample) (img : Img) (t : Nat)
    (ht : 0 < t) (hne : img.height ≠ t) :
    (resize_to_height resample img t).height = t ∧
    (resize_to_height resample img t).width =
      max 1 (img.width * t / img.height) := by
  unfold resize_to_height
  rw [if_neg hne]
  exact ⟨(hres ..).2.2, (hres ..).2.1⟩

/-- C3 witness: resizing the 5×3 image to target height 4 yields a 6×4
image. -/
theorem resize_dims_floor_witness :
    0 < 4 ∧ exImg5x3.height ≠ 4 ∧
    (resize_to_height nearestResample exImg5x3 4).height = 4 ∧
    (resize_to_height nearestResample exImg5x3 4).width = 6 := by
  have h := resize_dims_floor nearestResample (fun _ _ _ => ⟨rfl, rfl, rfl⟩)
    exImg5x3 4 (by decide) (by decide)
  refine ⟨by decide, by decide, h.1, ?_⟩
  rw [h.2]
  decide

/-- C7: an input image whose height already equals the common target
height (the minimum height of the input set) is passed through
`resize_to_height` unchanged — the very same image, no resampling. -/
theorem resize_pass_through (resample : Img → Nat → Nat → Img)
    (images : List Img) (im : Img) (t : Nat) (hmem : im ∈ images)
    (hmin : (images.map Img.height).min? = some t) (h : im.height = t) :
    resize_to_height resample im t = im := by
  unfold resize_to_height
  rw [if_pos h]

/-- C7 witness: in the set `[exImgB, exImgA]` (heights 4 and 2, minimum
2), the image already at height 2 is returned unchanged. -/
theorem resize_pass_through_witness :
    resize_to_height nearestResample exImgA 2 = exImgA :=
  resize_pass_through nearestResample [exImgB, exImgA] exImgA 2
    (List.mem_cons_of_mem exImgB (List.mem_cons_self exImgA []))
    (by rfl) rfl

/-! ### Claim theorems: the Compositor -/

theorem pasteRow_width (ims : List Img) :
    ∀ (c : Img) (x : Nat), (pasteRow c x ims).width = c.width := by
  induction ims with
  | nil => intro c x; rfl
  | cons im ims ih =>
      intro c x
      simp only [pasteRow]
      rw [ih]
      rfl

theorem pasteRow_height (ims : List Img) :
    ∀ (c : Img) (x : Nat), (pasteRow c x ims).height = c.height := by
  induction ims with
  | nil => intro c x; rfl
  | cons im ims ih =>
      intro c x
      simp only [pasteRow]
      rw [ih]
      rfl

theorem pasteRow_mode (ims : List Img) :
    ∀ (c : Img) (x : Nat), (pasteRow c x ims).mode = c.mode := by
  induction ims with
  | nil => intro c x; rfl
  | cons im ims ih =>
      intro c x
      simp only [pasteRow]
      rw [ih]
      rfl

theorem paste_pix_inside (c im : Img) (px py x y : Nat)
    (hx1 : px ≤ x) (hx2 : x < px + im.width)
    (hy1 : py ≤ y) (hy2 : y < py + im.height) :
    (paste c im px py).pix x y = im.pix (x - px) (y - py) := by
  unfold paste
  simp only
  rw [if_pos ⟨hx1, hx2, hy1, hy2⟩]

/-- The computational content of `composite_horizontal` once the target
height is known. -/
theorem composite_eq (resample : Img → Nat → Nat → Img) (images : List Img)
    (bg : RGB) (t : Nat) (hmin : (images.map Img.height).min? = some t) :
    composite_horizontal resample images bg =
      some (pasteRow
        ⟨Mode.rgb,
          ((images.map (fun im => resize_to_height resample im t)).map
            Img.width).sum,
          t, fun _ _ => bg⟩ 0
        (images.map (fun im => resize_to_height resample im t))) := by
  unfold composite_horizontal
  rw [hmin]

theorem resize_width_eq (resample : Img → Nat → Nat → Img)
    (hres : ResampleOK resample) (im : Img) (t : Nat) :
    (resize_to_height resample im t).width =
      if im.height = t then im.width
      else max 1 (im.width * t / im.height) := by
  unfold resize_to_height
  by_cases h : im.height = t
  · rw [if_pos h, if_pos h]
  · rw [if_neg h, if_neg h]
    exact (hres ..).2.1

/-- C6: for a non-empty input list (joined edge-to-edge, i.e. overlap 0 —
`composite_horizontal` has no overlap), the output width is exactly the
sum of the post-resize widths of the inputs (each input's width if already
at the target height, else `max 1 (w * t / h)`), and the output height is
the minimum input height. -/
theorem composite_dims (resample : Img → Nat → Nat → Img)
    (hres : ResampleOK resample) (images : List Img) (bg : RGB) (t : Nat)
    (hmin : (images.map Img.height).min? = some t) :
    (composite_horizontal resample images bg).map Img.height = some t ∧
    (composite_horizontal resample images bg).map Img.width =
      some ((images.map (fun im =>
        if im.height = t then im.width
        else max 1 (im.width * t / im.height))).sum) := by
  rw [composite_eq resample images bg t hmin]
  constructor
  · rw [Option.map_some']
    rw [pasteRow_height]
  · rw [Option.map_some']
    rw [pasteRow_width]
    congr 1
    show ((images.map fun im => resize_to_height resample im t).map
      Img.width).sum = _
    rw [List.map_map]
    exact congrArg List.sum
      (List.map_congr_left fun im _ => resize_width_eq resample hres im t)

/-- C6 witness: inputs of sizes 3×4 and 2×2 (minimum height 2); the 3×4
image resizes to 1×2 (`⌊3·2/4⌋ = 1`), so the composite is 3×2. -/
theorem composite_dims_witness :
    (composite_horizontal nearestResample [exImgB, exImgA] white).map
      Img.height = some 2 ∧
    (composite_horizontal nearestResample [exImgB, exImgA] white).map
      Img.width = some 3 := by
  have h := composite_dims nearestResample (fun _ _ _ => ⟨rfl, rfl, rfl⟩)
    [exImgB, exImgA] white 2 (by rfl)
  refine ⟨h.1, ?_⟩
  rw [h.2]
  decide

/-- C8: compositing a single-image list is a pass-through — the output has
the same dimensions as the sole input and identical pixel content on the
whole image. -/
theorem composite_single (resample : Img → Nat → Nat → Img) (im : Img)
    (bg : RGB) (out : Img)
    (hout : composite_horizontal resample [im] bg = some out) :
    out.PixEq im := by
  have hr : resize_to_height resample im im.height = im := by
    unfold resize_to_height
    rw [if_pos rfl]
  have he := composite_eq resample [im] bg im.height (by rfl)
  rw [List.map_cons, List.map_nil, hr] at he
  rw [he] at hout
  injection hout with hq
  have hwidth : out.width = im.width := by
    rw [← hq, pasteRow_width]
    simp
  have hheight : out.height = im.height := by
    rw [← hq, pasteRow_height]
  refine ⟨hwidth, hheight, ?_⟩
  intro x hx y hy
  rw [hwidth] at hx
  rw [hheight] at hy
  rw [← hq]
  show (paste ⟨Mode.rgb, ([im].map Img.width).sum, im.height, fun _ _ => bg⟩
    im 0 0).pix x y = im.pix x y
  rw [paste_pix_inside _ _ _ _ _ _ (Nat.zero_le x) (by omega)
    (Nat.zero_le y) (by omega)]
  simp

/-- C8 witness: compositing `[exImgA]` yields a canvas pixel-identical to
`exImgA`. -/
theorem composite_single_witness :
    (paste (Img.mk Mode.rgb 2 2 (fun _ _ => white)) exImgA 0 0).PixEq
      exImgA :=
  composite_single nearestResample exImgA white
    (paste (Img.mk Mode.rgb 2 2 (fun _ _ => white)) exImgA 0 0) rfl

/-! ### Claim theorems: fetching and the `/render` entry point -/

/-- When every attempt raises an exception, the retry loop runs all its
iterations, sleeping `backoff * (attempt + 1)` after each one, and falls
through to the exhausted-retries error with the last exception message. -/
theorem downloadGo_exn (oracle : Nat → Attempt) (backoff : ℚ)
    (msgs : Nat → String) :
    ∀ (rem attempt : Nat) (lastErr : Option String) (lastStatus : Option Nat)
      (sleeps : List ℚ),
      0 < rem →
      (∀ a, attempt ≤ a → a < attempt + rem →
        oracle a = Attempt.exn (msgs a)) →
      downloadGo oracle backoff attempt rem lastErr lastStatus sleeps =
        (⟨none, some (FetchErr.exhausted (some (msgs (attempt + rem - 1)))),
            lastStatus⟩,
          attempt + rem,
          sleeps.reverse ++ (List.range rem).map
            (fun k => backoff * (((attempt + k : Nat) : ℚ) + 1))) := by
  intro rem
  induction rem with
  | zero =>
      intro attempt lastErr lastStatus sleeps h0 _
      exact absurd h0 (by omega)
  | succ rem ih =>
      intro attempt lastErr lastStatus sleeps _ hall
      have hatt : oracle attempt = Attempt.exn (msgs attempt) :=
        hall attempt (Nat.le_refl _) (by omega)
      simp only [downloadGo, hatt]
      by_cases hrem : rem = 0
      · subst hrem
        simp only [downloadGo]
        simp [List.range_succ]
      · rw [ih (attempt + 1) (some (msgs attempt)) lastStatus _ (by omega)
          (fun a ha1 ha2 => hall a (by omega) (by omega))]
        have h2 : attempt + 1 + rem - 1 = attempt + (rem + 1) - 1 := by omega
        have h3 : attempt + 1 + rem = attempt + (rem + 1) := by omega
        have h7 : backoff * ((attempt : ℚ) + 1) ::
            (List.range rem).map
              (fun k => backoff * (((attempt + 1 + k : Nat) : ℚ) + 1)) =
            (List.range (rem + 1)).map
              (fun k => backoff * (((attempt + k : Nat) : ℚ) + 1)) := by
          rw [List.range_succ_eq_map, List.map_cons, List.map_map,
            Nat.add_zero]
          congr 1
          refine List.map_congr_left fun k _ => ?_
          have h4 : attempt + 1 + k = attempt + Nat.succ k := by omega
          simp only [Function.comp, h4]
        rw [h2, h3, List.reverse_cons, List.append_assoc,
          List.singleton_append, h7]

theorem processUrls_fail (cfg : Config) (resample : Img → Nat → Nat → Img)
    (fetch : Nat → Nat → Attempt) (decode : Nat → List Nat → Option Img) :
    ∀ (us : List UrlVal) (s : Nat) (acc : List Img) (i : Nat),
      s ≤ i → i < s + us.length →
      (∀ j, s ≤ j → j < i →
        (download_bytes cfg.retries cfg.backoff (fetch j)).1.err = none ∧
        decode j (((download_bytes cfg.retries cfg.backoff
          (fetch j)).1.content).getD []) ≠ none) →
      (download_bytes cfg.retries cfg.backoff (fetch i)).1.err.isSome =
        true →
      processUrls cfg resample fetch decode s us acc =
        (RenderOutcome.fetchError i
          (download_bytes cfg.retries cfg.backoff (fetch i)).1.status,
          i + 1) := by
  intro us
  induction us with
  | nil =>
      intro s acc i h1 h2 _ _
      simp only [List.length_nil] at h2
      omega
  | cons u rest ih =>
      intro s acc i h1 h2 hok hfail
      by_cases hsi : s = i
      · subst hsi
        obtain ⟨e, he⟩ := Option.isSome_iff_exists.mp hfail
        simp only [processUrls]
        rw [he]
      · have hok_s := hok s (Nat.le_refl s) (by omega)
        obtain ⟨raw, hraw⟩ := Option.ne_none_iff_exists'.mp hok_s.2
        simp only [processUrls]
        rw [hok_s.1, hraw]
        exact ih (s + 1) _ i (by omega)
          (by simp only [List.length_cons] at h2; omega)
          (fun j hj1 hj2 => hok j (by omega) hj2) hfail

/-- C2, counterexample to the claim as stated: with `RETRIES = 2` the
claim asserts that a URL answering HTTP 404 is attempted `1 + 2 = 3` times
with backoff sleeps between attempts before the failure is surfaced.  The
code returns as soon as it obtains any response with status ≥ 400: exactly
one attempt is made and no backoff sleep happens (retries and backoff
apply only to raised exceptions, i.e. network errors). -/
theorem download_no_retry_on_http_status :
    (download_bytes 2 (3 / 5)
      (fun _ => Attempt.response 404 [] ['n', 'f'])).2.1 = 1 ∧
    (download_bytes 2 (3 / 5)
      (fun _ => Attempt.response 404 [] ['n', 'f'])).2.2 = [] ∧
    (download_bytes 2 (3 / 5)
      (fun _ => Attempt.response 404 [] ['n', 'f'])).2.1 ≠ 2 + 1 := by
  decide

/-- C2 (amended): a fetch that obtains a non-success HTTP status (≥ 400)
surfaces the failure immediately on the first attempt that obtains it —
no retry, no backoff sleep — carrying that status; the bounded retry loop
with backoff delay `RETRY_BACKOFF * (attempt + 1)` applies only to
attempts that raise exceptions (network errors), and after exhausting
`RETRIES + 1` attempts surfaces the last exception; and `render` maps a
per-URL fetch failure at input index `i` to the single failure outcome
`fetchError i status` — no partial composite image is produced. -/
theorem fetch_http_status_behaviour :
    (∀ (retries : Nat) (backoff : ℚ) (oracle : Nat → Attempt)
        (code : Nat) (content : List Nat) (text : List Char),
      oracle 0 = Attempt.response code content text → 400 ≤ code →
      download_bytes retries backoff oracle =
        (⟨none, some (FetchErr.http code (text.take 200)), some code⟩, 1, []))
    ∧ (∀ (retries : Nat) (backoff : ℚ) (oracle : Nat → Attempt)
        (msgs : Nat → String),
      (∀ a, a ≤ retries → oracle a = Attempt.exn (msgs a)) →
      download_bytes retries backoff oracle =
        (⟨none, some (FetchErr.exhausted (some (msgs retries))), none⟩,
          retries + 1,
          (List.range (retries + 1)).map
            (fun (k : Nat) => backoff * ((k : ℚ) + 1))))
    ∧ (∀ (cfg : Config) (resample : Img → Nat → Nat → Img) (body : ReqBody)
        (fetch : Nat → Nat → Attempt) (decode : Nat → List Nat → Option Img)
        (items : List UrlVal) (idval : String) (i : Nat),
      body.isObject = true → body.idcoti = some idval →
      body.urls = some (UrlsVal.list items) → items.length ≠ 0 →
      ¬ (cfg.maxImages < items.length) →
      items.findIdx? (fun u => !validUrl u) = none →
      i < items.length →
      (∀ j, j < i →
        (download_bytes cfg.retries cfg.backoff (fetch j)).1.err = none ∧
        decode j (((download_bytes cfg.retries cfg.backoff
          (fetch j)).1.content).getD []) ≠ none) →
      (download_bytes cfg.retries cfg.backoff (fetch i)).1.err.isSome =
        true →
      render cfg resample body fetch decode =
        (RenderOutcome.fetchError i
          (download_bytes cfg.retries cfg.backoff (fetch i)).1.status,
          i + 1)) := by
  refine ⟨?_, ?_, ?_⟩
  · intro retries backoff oracle code content text h0 hcode
    unfold download_bytes
    simp only [downloadGo, h0]
    rw [if_pos hcode]
    rfl
  · intro retries backoff oracle msgs hall
    unfold download_bytes
    rw [downloadGo_exn oracle backoff msgs (retries + 1) 0 none none []
      (by omega) (fun a ha1 ha2 => hall a (by omega))]
    have h5 : 0 + (retries + 1) - 1 = retries := by omega
    have h6 : 0 + (retries + 1) = retries + 1 := by omega
    have h7 : (List.range (retries + 1)).map
        (fun k => backoff * (((0 + k : Nat) : ℚ) + 1)) =
        (List.range (retries + 1)).map
          (fun (k : Nat) => backoff * ((k : ℚ) + 1)) :=
      List.map_congr_left fun k _ => by rw [Nat.zero_add]
    rw [h5, h6, List.reverse_nil, List.nil_append, h7]
  · intro cfg resample body fetch decode items idval i hobj hid hurls hne
      hcap hfind hi hok hfail
    simp only [render, hobj, hid, hurls, Bool.true_eq_false, if_false,
      hfind]
    rw [if_neg hne, if_neg hcap]
    exact processUrls_fail cfg resample fetch decode items 0 [] i
      (Nat.zero_le i) (by omega) (fun j hj1 hj2 => hok j hj2) hfail

/-- C2 witness: a single-URL request whose URL answers 404 on the very
first attempt: `download_bytes` returns after one attempt with no sleeps,
and `render` returns `fetchError` at index 0 with status 404. -/
theorem fetch_http_status_behaviour_witness :
    download_bytes 2 (3 / 5) (fun _ => Attempt.response 404 [] ['n', 'f']) =
      (⟨none, some (FetchErr.http 404 (['n', 'f'].take 200)), some 404⟩,
        1, []) ∧
    render exCfg nearestResample exBodyOne
        (fun _ _ => Attempt.response 404 [] ['n', 'f']) (fun _ _ => none) =
      (RenderOutcome.fetchError 0 (some 404), 1) := by
  have h := fetch_http_status_behaviour
  constructor
  · exact h.1 2 (3 / 5) _ 404 [] ['n', 'f'] rfl (by omega)
  · have h3 := h.2.2 exCfg nearestResample exBodyOne
      (fun _ _ => Attempt.response 404 [] ['n', 'f']) (fun _ _ => none)
      [UrlVal.str ['h', 't', 't', 'p', ':', '/', '/', 'a']] ("1") 0
      rfl rfl rfl (by decide) (by decide) (by decide) (by decide)
      (fun j hj => absurd hj (Nat.not_lt_zero j)) (by decide)
    rw [h3]
    have hst : (download_bytes exCfg.retries exCfg.backoff
        ((fun (_ : Nat) (_ : Nat) => Attempt.response 404 [] ['n', 'f'])
          0)).1.status = some 404 := by
      decide
    rw [hst]

/-- C9: a request whose `urls` field is missing, not a list, or the empty
list is rejected with an invalid-request error before any download is
attempted (the download counter stays 0); a request whose URL count
exceeds `MAX_IMAGES` is rejected with the count-exceeded error, also
before any download and before the pipeline runs. -/
theorem render_validates_before_fetch (cfg : Config)
    (resample : Img → Nat → Nat → Img) (body : ReqBody)
    (fetch : Nat → Nat → Attempt) (decode : Nat → List Nat → Option Img) :
    ((body.urls = none ∨ body.urls = some UrlsVal.notList ∨
        body.urls = some (UrlsVal.list [])) →
      (render cfg resample body fetch decode).1.isInvalidRequest = true ∧
      (render cfg resample body fetch decode).2 = 0)
    ∧ (∀ (items : List UrlVal) (idval : String),
        body.isObject = true → body.idcoti = some idval →
        body.urls = some (UrlsVal.list items) →
        cfg.maxImages < items.length →
        render cfg resample body fetch decode =
          (RenderOutcome.tooMany items.length, 0)) := by
  constructor
  · intro hurls
    by_cases hobj : body.isObject = true
    · cases hid : body.idcoti with
      | none => simp [render, hobj, hid, RenderOutcome.isInvalidRequest]
      | some v =>
          rcases hurls with h | h | h <;>
            simp [render, hobj, hid, h, RenderOutcome.isInvalidRequest]
    · have hobj' : body.isObject = false := by
        cases hb : body.isObject
        · rfl
        · exact absurd hb hobj
      simp [render, hobj', RenderOutcome.isInvalidRequest]
  · intro items idval hobj hid hurls hcap
    have hne : ¬ (items.length = 0) := by omega
    simp only [render, hobj, hid, hurls, Bool.true_eq_false, if_false]
    rw [if_neg hne, if_pos hcap]

/-- C9 witness: the empty-`urls` request is rejected as invalid with no
download attempted; the 7-URL request (`MAX_IMAGES = 6`) is rejected with
the count-exceeded error and no download. -/
theorem render_validates_before_fetch_witness :
    (render exCfg nearestResample exBodyEmpty (fun _ _ => Attempt.exn ("e"))
      (fun _ _ => none)).1.isInvalidRequest = true ∧
    (render exCfg nearestResample exBodyEmpty (fun _ _ => Attempt.exn ("e"))
      (fun _ _ => none)).2 = 0 ∧
    render exCfg nearestResample exBodyMany (fun _ _ => Attempt.exn ("e"))
      (fun _ _ => none) = (RenderOutcome.tooMany 7, 0) := by
  have h1 := (render_validates_before_fetch exCfg nearestResample
    exBodyEmpty (fun _ _ => Attempt.exn ("e")) (fun _ _ => none)).1
    (Or.inr (Or.inr rfl))
  have h2 := (render_validates_before_fetch exCfg nearestResample
    exBodyMany (fun _ _ => Attempt.exn ("e")) (fun _ _ => none)).2
    (List.replicate 7 UrlVal.nonStr) ("1") rfl rfl rfl (by decide)
  refine ⟨h1.1, h1.2, ?_⟩
  rw [h2]
  rfl

/-- C10 helper: the size clamp preserves the color mode. -/
theorem clamp_mode (maxSide : Nat) (resample : Img → Nat → Nat → Img)
    (hres : ResampleOK resample) (img : Img) :
    (clamp_image maxSide resample img).mode = img.mode := by
  simp only [clamp_image]
  split
  · rfl
  · exact (hres ..).1

/-- C10: decoding normalises every image to 3-channel RGB (`open_image`
converts any non-RGB mode and discards alpha), every pipeline stage
(clamp, trim, resize, composite) maps RGB images to RGB images, and the
final composite — the image that is PNG-encoded — is RGB, hence carries no
alpha channel. -/
theorem pipeline_rgb_only (resample : Img → Nat → Nat → Img)
    (hres : ResampleOK resample) (maxSide : Nat) (raw : Img) (bgc : RGB)
    (tol pad : Nat) (images : List Img) (bg : RGB) (out : Img)
    (hout : composite_horizontal resample images bg = some out) :
    (open_image raw).mode = Mode.rgb
    ∧ (clamp_image maxSide resample (open_image raw)).mode = Mode.rgb
    ∧ (trim_white (clamp_image maxSide resample (open_image raw)) bgc tol
        pad).mode = Mode.rgb
    ∧ (∀ (im : Img) (t : Nat), im.mode = Mode.rgb →
        (resize_to_height resample im t).mode = Mode.rgb)
    ∧ out.mode = Mode.rgb ∧ out.mode ≠ Mode.rgba := by
  have h1 : (open_image raw).mode = Mode.rgb := convertRGB_mode raw
  have h2 := clamp_mode maxSide resample hres (open_image raw)
  have hmode : out.mode = Mode.rgb := by
    cases hmin : (images.map Img.height).min? with
    | none =>
        unfold composite_horizontal at hout
        rw [hmin] at hout
        exact Option.noConfusion hout
    | some t =>
        rw [composite_eq resample images bg t hmin] at hout
        injection hout with hq
        rw [← hq, pasteRow_mode]
  refine ⟨h1, by rw [h2, h1], trim_white_mode _ _ _ _, ?_, hmode, ?_⟩
  · intro im t him
    unfold resize_to_height
    by_cases h : im.height = t
    · rw [if_pos h]
      exact him
    · rw [if_neg h, (hres ..).1]
      exact him
  · rw [hmode]
    exact fun hcon => Mode.noConfusion hcon

/-- C10 witness: an RGBA decode is normalised to RGB, and the composite of
`[exImgA]` is not RGBA. -/
theorem pipeline_rgb_only_witness :
    (open_image exRawRGBA).mode = Mode.rgb ∧
    (paste (Img.mk Mode.rgb 2 2 (fun _ _ => white)) exImgA 0 0).mode ≠
      Mode.rgba := by
  have h := pipeline_rgb_only nearestResample (fun _ _ _ => ⟨rfl, rfl, rfl⟩)
    2500 exRawRGBA white 18 2 [exImgA] white
    (paste (Img.mk Mode.rgb 2 2 (fun _ _ => white)) exImgA 0 0) rfl
  exact ⟨h.1, h.2.2.2.2.2⟩

end MosconiRender
